import Mathlib

/-!
Verification development for the ABL open-top boundary-condition core
(`AssembleMomentumEdgeABLTopBC`) of the nalu-wind repository.

The repository ships only the class header (`AssembleMomentumEdgeABLTopBC.h`);
the member-function bodies are not part of the source tree.  The definitions
below therefore model the documented behaviour of the missing implementation
from the specification: the spectral potential-flow solve with its three
boundary-condition variants, the zero-wavenumber branch, the transform-plan
cache, the one-shot lazy setup guarded by the `needToInitialize_` flag, the
configuration checks, and the gather distribution descriptor.

Number representation: plane fields and spectral coefficients are modelled
over `ℂ` (the C++ code works with `double` / `fftw_complex`; real arithmetic
is modelled exactly), grid/index bookkeeping over `ℕ`/`ℤ`, and mesh
coordinates over `ℚ` so that the configuration checks stay decidable.
-/

namespace NaluABL

open Finset

/-- A horizontal plane field of the configured size `(imax, jmax) = (M, N)`:
one complex value per structured grid point.  Periodic directions are indexed
by `ZMod` so that wavenumber arithmetic is available. -/
abbrev Plane (M N : ℕ) : Type := ZMod M → ZMod N → ℂ

variable {M N : ℕ} [NeZero M] [NeZero N]

/-- Modelled from the spec: a separable two-dimensional transform, the common
shape of every forward/inverse plan pair created by the plan cache (§4.2):
a constant normalization factor times a kernel sum along the first direction
of a kernel sum along the second direction. -/
noncomputable def kern2T (cst : ℂ) (KA : ZMod M → ZMod M → ℂ) (KB : ZMod N → ZMod N → ℂ)
    (f : Plane M N) : Plane M N :=
  fun a b => cst * ∑ p : ZMod M, KA a p * ∑ q : ZMod N, KB b q * f p q

/-- Modelled from the spec: the forward full-plane 2D Fourier transform
(the `planFourier2dF_` plan, used by the periodic-periodic variant), with the
transform-length normalization `1/(M·N)` applied on the forward side so that
the zero-wavenumber coefficient of a constant field is that constant. -/
noncomputable def fourier2dF : Plane M N → Plane M N :=
  kern2T (((M : ℂ) * (N : ℂ)))⁻¹
    (fun k p => ZMod.stdAddChar (-(p * k)))
    (fun l q => ZMod.stdAddChar (-(q * l)))

/-- Modelled from the spec: the inverse full-plane 2D Fourier transform
(the `planFourier2dB_` plan), the unnormalized exponential sum matching
`fourier2dF`. -/
noncomputable def fourier2dB : Plane M N → Plane M N :=
  kern2T 1
    (fun p k => ZMod.stdAddChar (p * k))
    (fun q l => ZMod.stdAddChar (q * l))

/-- Modelled from the spec: discrete sine kernel along an inflow direction
(half-sample convention), row `m`, point `p`. -/
noncomputable def sinK (M : ℕ) (m p : ZMod M) : ℝ :=
  Real.sin (Real.pi * (m.val : ℝ) * (2 * (p.val : ℝ) + 1) / (2 * (M : ℝ)))

/-- Modelled from the spec: discrete cosine kernel along an inflow direction
(half-sample convention), row `m`, point `p`.  Mode `m = 0` is the constant
basis function, carrying the mean. -/
noncomputable def cosK (M : ℕ) (m p : ZMod M) : ℝ :=
  Real.cos (Real.pi * (m.val : ℝ) * (2 * (p.val : ℝ) + 1) / (2 * (M : ℝ)))

/-- Modelled from the spec: forward transform for the inflow-periodic variant —
sine transform along the inflow `x` direction combined with the 1D Fourier
transform along the periodic `y` direction (the `planSinx_`/`planFourieryF_`
pair). -/
noncomputable def sinxFourieryF : Plane M N → Plane M N :=
  kern2T (2 / ((M : ℂ) * (N : ℂ)))
    (fun m p => ((sinK M m p : ℝ) : ℂ))
    (fun n q => ZMod.stdAddChar (-(q * n)))

/-- Modelled from the spec: inverse transform producing the horizontal velocity
components for the inflow-periodic variant — cosine synthesis along the inflow
`x` direction (whose zero mode is the constant, carrying the mean) combined
with inverse Fourier synthesis along the periodic `y` direction. -/
noncomputable def cosxFourieryB : Plane M N → Plane M N :=
  kern2T 1
    (fun p m => ((cosK M m p : ℝ) : ℂ))
    (fun q n => ZMod.stdAddChar (q * n))

/-- Modelled from the spec: inverse transform producing the vertical velocity
for the inflow-periodic variant — sine synthesis along the inflow `x`
direction combined with inverse Fourier synthesis along `y`. -/
noncomputable def sinxFourieryB : Plane M N → Plane M N :=
  kern2T 1
    (fun p m => ((sinK M m p : ℝ) : ℂ))
    (fun q n => ZMod.stdAddChar (q * n))

/-- Modelled from the spec: forward transform for the inflow-inflow variant —
sine transforms along both directions (the `planSinx_`/`planSiny_` pair). -/
noncomputable def sinSin2F : Plane M N → Plane M N :=
  kern2T (4 / ((M : ℂ) * (N : ℂ)))
    (fun m p => ((sinK M m p : ℝ) : ℂ))
    (fun n q => ((sinK N n q : ℝ) : ℂ))

/-- Modelled from the spec: inverse transform producing the horizontal velocity
components for the inflow-inflow variant — cosine synthesis along both
directions, whose `(0,0)` mode is the constant carrying the mean. -/
noncomputable def cosCos2B : Plane M N → Plane M N :=
  kern2T 1
    (fun p m => ((cosK M m p : ℝ) : ℂ))
    (fun q n => ((cosK N n q : ℝ) : ℂ))

/-- Modelled from the spec: inverse transform producing the vertical velocity
for the inflow-inflow variant — sine synthesis along both directions. -/
noncomputable def sinSin2B : Plane M N → Plane M N :=
  kern2T 1
    (fun p m => ((sinK M m p : ℝ) : ℂ))
    (fun q n => ((sinK N n q : ℝ) : ℂ))

/-- Modelled from the spec: signed integer frequency of Fourier mode `m` on a
periodic direction with `M` points (standard FFT layout: the first half of the
index range holds non-negative frequencies, the second half negative ones). -/
def fftFreq {M : ℕ} (m : ZMod M) : ℤ :=
  if 2 * m.val ≤ M then (m.val : ℤ) else (m.val : ℤ) - (M : ℤ)

/-- Modelled from the spec: physical wavenumber of Fourier mode `m` on a
periodic direction of extent `L`. -/
noncomputable def kPeriodic {M : ℕ} (L : ℝ) (m : ZMod M) : ℝ :=
  2 * Real.pi * ((fftFreq m : ℤ) : ℝ) / L

/-- Modelled from the spec: physical wavenumber of sine/cosine mode `m` on an
inflow direction of extent `L`. -/
noncomputable def kInflow {M : ℕ} (L : ℝ) (m : ZMod M) : ℝ :=
  Real.pi * (m.val : ℝ) / L

/-- Modelled from the spec: magnitude `|k|` of the horizontal wavenumber
pair. -/
noncomputable def kMag (kx ky : ℝ) : ℝ :=
  Real.sqrt (kx ^ 2 + ky ^ 2)

/-- Modelled from the spec (§4.3 step 2): the harmonic potential-flow relation
at a nonzero wavenumber pair — the horizontal boundary coefficients are the
sampling-plane vertical-velocity coefficient scaled by the evanescent decay
factor `e^(−|k|·deltaZ)` and split in proportion `kx/|k|`, `ky/|k|` (with the
quarter-period phase shift `I` of the harmonic relation); the boundary
vertical-velocity coefficient is the same decayed amplitude. -/
noncomputable def harmonicRelation (deltaZ kx ky : ℝ) (wHat : ℂ) : ℂ × ℂ × ℂ :=
  (Complex.I * ((kx / kMag kx ky * Real.exp (-(kMag kx ky * deltaZ)) : ℝ) : ℂ) * wHat,
   Complex.I * ((ky / kMag kx ky * Real.exp (-(kMag kx ky * deltaZ)) : ℝ) : ℂ) * wHat,
   ((Real.exp (-(kMag kx ky * deltaZ)) : ℝ) : ℂ) * wHat)

/-- Modelled from the spec (§4.3 steps 2–3): per-mode solve for the
periodic-periodic variant.  The zero wavenumber pair is an explicit branch
that bypasses the harmonic relation: the horizontal coefficients are set
directly to the supplied mean horizontal velocity and the vertical coefficient
to zero. -/
noncomputable def solveModePP (xL yL deltaZ : ℝ) (UAvg : ℝ × ℝ)
    (m : ZMod M) (n : ZMod N) (wHat : ℂ) : ℂ × ℂ × ℂ :=
  if m = 0 ∧ n = 0 then (((UAvg.1 : ℝ) : ℂ), ((UAvg.2 : ℝ) : ℂ), 0)
  else harmonicRelation deltaZ (kPeriodic xL m) (kPeriodic yL n) wHat

/-- Modelled from the spec: per-mode solve for the inflow-periodic variant
(inflow in `x`, periodic in `y`), with the same explicit zero-mode branch. -/
noncomputable def solveModeIP (xL yL deltaZ : ℝ) (UAvg : ℝ × ℝ)
    (m : ZMod M) (n : ZMod N) (wHat : ℂ) : ℂ × ℂ × ℂ :=
  if m = 0 ∧ n = 0 then (((UAvg.1 : ℝ) : ℂ), ((UAvg.2 : ℝ) : ℂ), 0)
  else harmonicRelation deltaZ (kInflow xL m) (kPeriodic yL n) wHat

/-- Modelled from the spec: per-mode solve for the inflow-inflow variant,
with the same explicit zero-mode branch. -/
noncomputable def solveModeII (xL yL deltaZ : ℝ) (UAvg : ℝ × ℝ)
    (m : ZMod M) (n : ZMod N) (wHat : ℂ) : ℂ × ℂ × ℂ :=
  if m = 0 ∧ n = 0 then (((UAvg.1 : ℝ) : ℂ), ((UAvg.2 : ℝ) : ℂ), 0)
  else harmonicRelation deltaZ (kInflow xL m) (kInflow yL n) wHat

/-- The three boundary-plane output arrays of one potential-flow solve. -/
structure BCResult (M N : ℕ) where
  u : Plane M N
  v : Plane M N
  w : Plane M N

/-- Modelled from the spec: the periodic-periodic potential-flow solve —
forward 2D Fourier transform of the sampling-plane vertical velocity, per-mode
harmonic solve with explicit zero-mode branch, inverse 2D Fourier transform of
each coefficient array. -/
noncomputable def potentialBCPeriodicPeriodic (xL yL deltaZ : ℝ)
    (wSamp : Plane M N) (UAvg : ℝ × ℝ) : BCResult M N :=
  let wHat := fourier2dF wSamp
  { u := fourier2dB (fun m n => (solveModePP xL yL deltaZ UAvg m n (wHat m n)).1)
    v := fourier2dB (fun m n => (solveModePP xL yL deltaZ UAvg m n (wHat m n)).2.1)
    w := fourier2dB (fun m n => (solveModePP xL yL deltaZ UAvg m n (wHat m n)).2.2) }

/-- Modelled from the spec: the inflow-periodic potential-flow solve — sine
transform in `x` / Fourier transform in `y` of the sampling-plane vertical
velocity, per-mode harmonic solve with explicit zero-mode branch, cosine
synthesis in `x` for the horizontal components and sine synthesis for the
vertical component. -/
noncomputable def potentialBCInflowPeriodic (xL yL deltaZ : ℝ)
    (wSamp : Plane M N) (UAvg : ℝ × ℝ) : BCResult M N :=
  let wHat := sinxFourieryF wSamp
  { u := cosxFourieryB (fun m n => (solveModeIP xL yL deltaZ UAvg m n (wHat m n)).1)
    v := cosxFourieryB (fun m n => (solveModeIP xL yL deltaZ UAvg m n (wHat m n)).2.1)
    w := sinxFourieryB (fun m n => (solveModeIP xL yL deltaZ UAvg m n (wHat m n)).2.2) }

/-- Modelled from the spec: the inflow-inflow potential-flow solve — sine
transforms along both directions, per-mode harmonic solve with explicit
zero-mode branch, cosine synthesis for the horizontal components and sine
synthesis for the vertical component. -/
noncomputable def potentialBCInflowInflow (xL yL deltaZ : ℝ)
    (wSamp : Plane M N) (UAvg : ℝ × ℝ) : BCResult M N :=
  let wHat := sinSin2F wSamp
  { u := cosCos2B (fun m n => (solveModeII xL yL deltaZ UAvg m n (wHat m n)).1)
    v := cosCos2B (fun m n => (solveModeII xL yL deltaZ UAvg m n (wHat m n)).2.1)
    w := sinSin2B (fun m n => (solveModeII xL yL deltaZ UAvg m n (wHat m n)).2.2) }

/-- A single (complex) sinusoid of amplitude `A` at wavenumber pair `(m₀, 0)`
on the sampling plane: the input of the analytic single-mode property. -/
noncomputable def wSampSinusoid (A : ℝ) (m₀ : ZMod M) : Plane M N :=
  fun p _ => ((A : ℝ) : ℂ) * ZMod.stdAddChar (m₀ * p)

/-- The amplitude of the spectral mode `(m, n)` of a boundary-plane field:
the modulus of its forward 2D Fourier coefficient. -/
noncomputable def modeAmplitude (g : Plane M N) (m : ZMod M) (n : ZMod N) : ℝ :=
  Complex.abs (fourier2dF g m n)

/-- The call frame of one `potentialBC*` invocation: the two input arrays
(`wSamp`, `UAvg`) and the three output arrays (`uBC`, `vBC`, `wBC`), matching
the five reference parameters of the C++ member functions. -/
structure SolveCall (M N : ℕ) where
  wSamp : Plane M N
  UAvg : ℝ × ℝ
  uBC : Plane M N
  vBC : Plane M N
  wBC : Plane M N

/-- Modelled from the spec: one `potentialBCPeriodicPeriodic` call — the three
output arrays are overwritten with the solve result; the input arrays are only
read. -/
noncomputable def runPotentialBCPeriodicPeriodic (xL yL deltaZ : ℝ)
    (s : SolveCall M N) : SolveCall M N :=
  let r := potentialBCPeriodicPeriodic xL yL deltaZ s.wSamp s.UAvg
  { s with uBC := r.u, vBC := r.v, wBC := r.w }

/-- Modelled from the spec: one `potentialBCInflowPeriodic` call. -/
noncomputable def runPotentialBCInflowPeriodic (xL yL deltaZ : ℝ)
    (s : SolveCall M N) : SolveCall M N :=
  let r := potentialBCInflowPeriodic xL yL deltaZ s.wSamp s.UAvg
  { s with uBC := r.u, vBC := r.v, wBC := r.w }

/-- Modelled from the spec: one `potentialBCInflowInflow` call. -/
noncomputable def runPotentialBCInflowInflow (xL yL deltaZ : ℝ)
    (s : SolveCall M N) : SolveCall M N :=
  let r := potentialBCInflowInflow xL yL deltaZ s.wSamp s.UAvg
  { s with uBC := r.u, vBC := r.v, wBC := r.w }

/-- Boundary-condition type of one horizontal direction. -/
inductive BCType where
  | periodic
  | inflow
deriving DecidableEq

/-- The transform-plan handles held by the algorithm (mirroring the ten
`fftw_plan` members of the header). -/
inductive PlanKind where
  | fourier2dFwd
  | fourier2dBwd
  | sinx
  | cosx
  | fourierxFwd
  | fourierxBwd
  | siny
  | cosy
  | fourieryFwd
  | fourieryBwd
deriving DecidableEq

/-- A created transform plan: its kind and the grid size it is sized to. -/
structure PlanSpec where
  kind : PlanKind
  ni : ℕ
  nj : ℕ
deriving DecidableEq

/-- Modelled from the spec (§4.2): the set of transform plans created at
setup, determined solely by the `(horizBC_x, horizBC_y)` combination and sized
to `(imax, jmax)`: periodic/periodic gives the full-plane 2D pair,
inflow/periodic (or mirrored) gives sine/cosine plans along the inflow
direction with the 1D Fourier pair along the periodic direction, and
inflow/inflow gives sine/cosine plans along both directions. -/
def createPlans (bc : BCType × BCType) (ni nj : ℕ) : List PlanSpec :=
  match bc with
  | (.periodic, .periodic) => [⟨.fourier2dFwd, ni, nj⟩, ⟨.fourier2dBwd, ni, nj⟩]
  | (.inflow, .periodic) =>
      [⟨.sinx, ni, nj⟩, ⟨.cosx, ni, nj⟩, ⟨.fourieryFwd, ni, nj⟩, ⟨.fourieryBwd, ni, nj⟩]
  | (.periodic, .inflow) =>
      [⟨.siny, ni, nj⟩, ⟨.cosy, ni, nj⟩, ⟨.fourierxFwd, ni, nj⟩, ⟨.fourierxBwd, ni, nj⟩]
  | (.inflow, .inflow) =>
      [⟨.sinx, ni, nj⟩, ⟨.cosx, ni, nj⟩, ⟨.siny, ni, nj⟩, ⟨.cosy, ni, nj⟩]

/-- A mesh node discovered on a plane: its external structured index tag and
its horizontal coordinates (coordinates over `ℚ`, keeping the configuration
checks decidable). -/
structure MeshNode where
  ix : ℕ
  iy : ℕ
  x : ℚ
  y : ℚ
deriving DecidableEq

/-- The construction parameters of the algorithm: grid dimensions, the raw
two-element horizontal boundary-type vector (integer codes from the input
deck), the uniform-spacing tolerance and the sampling elevation. -/
structure ABLConfig where
  imax : ℕ
  jmax : ℕ
  horizBCRaw : List ℤ
  tol : ℚ
  zSample : ℚ
deriving DecidableEq

/-- Modelled from the spec: decoding of a raw boundary-type code (code `0` is
periodic, code `1` is inflow; any other value is rejected by the
configuration check before decoding matters). -/
def decodeBC (v : ℤ) : BCType :=
  if v = 1 then .inflow else .periodic

/-- The decoded `(horizBC_x, horizBC_y)` combination of a configuration. -/
def bcCombo (cfg : ABLConfig) : BCType × BCType :=
  (decodeBC (cfg.horizBCRaw.getD 0 0), decodeBC (cfg.horizBCRaw.getD 1 0))

/-- The structured index tags of all discovered sample-plane nodes (the mesh
is given per partition; the plane is their concatenation). -/
def tagsOf (mesh : List (List MeshNode)) : List (ℕ × ℕ) :=
  mesh.flatten.map (fun nd => (nd.ix, nd.iy))

/-- Modelled from the spec: the discovered node count must agree with
`imax × jmax`. -/
def countOK (cfg : ABLConfig) (mesh : List (List MeshNode)) : Bool :=
  mesh.flatten.length == cfg.imax * cfg.jmax

/-- Modelled from the spec: no structured index tag may be duplicated, and no
tag of the `imax × jmax` grid may be missing. -/
def indexTagsOK (cfg : ABLConfig) (mesh : List (List MeshNode)) : Bool :=
  decide (tagsOf mesh).Nodup &&
    (List.range cfg.imax).all (fun i =>
      (List.range cfg.jmax).all (fun j => (tagsOf mesh).contains (i, j)))

/-- The x-coordinate of the node tagged `(i, j)` (default `0` when absent;
only consulted after the index-tag check has passed). -/
def lookupX (mesh : List (List MeshNode)) (i j : ℕ) : ℚ :=
  ((mesh.flatten.find? (fun nd => nd.ix == i && nd.iy == j)).map MeshNode.x).getD 0

/-- The y-coordinate of the node tagged `(i, j)`. -/
def lookupY (mesh : List (List MeshNode)) (i j : ℕ) : ℚ :=
  ((mesh.flatten.find? (fun nd => nd.ix == i && nd.iy == j)).map MeshNode.y).getD 0

/-- Modelled from the spec: the horizontal spacing must be uniform within the
tolerance — every consecutive gap along each direction must match the first
gap of that direction. -/
def spacingOK (cfg : ABLConfig) (mesh : List (List MeshNode)) : Bool :=
  let dx := lookupX mesh 1 0 - lookupX mesh 0 0
  let dy := lookupY mesh 0 1 - lookupY mesh 0 0
  ((List.range cfg.jmax).all (fun j => (List.range (cfg.imax - 1)).all (fun i =>
      decide (|lookupX mesh (i + 1) j - lookupX mesh i j - dx| ≤ cfg.tol)))) &&
  ((List.range cfg.imax).all (fun i => (List.range (cfg.jmax - 1)).all (fun j =>
      decide (|lookupY mesh i (j + 1) - lookupY mesh i j - dy| ≤ cfg.tol))))

/-- Modelled from the spec: every raw horizontal boundary-type value must be
one of the two legal codes (periodic or inflow). -/
def bcValuesOK (cfg : ABLConfig) : Bool :=
  cfg.horizBCRaw.all (fun v => v == 0 || v == 1)

/-- The fatal configuration failures raised during setup (§7). -/
inductive ConfigError where
  | badNodeCount
  | badIndexTags
  | nonUniformSpacing
  | badBCType
deriving DecidableEq

/-- The grid geometry fixed at setup: point counts, derived spacings and the
sampling elevation. -/
structure GridGeometry where
  imax : ℕ
  jmax : ℕ
  dx : ℚ
  dy : ℚ
  zSample : ℚ
deriving DecidableEq

/-- Modelled from the spec: exclusive prefix sums of the per-partition counts,
the offsets of the gather distribution descriptor (`displ_`), built the way
the gather setup accumulates them — each offset is the running total of the
counts before it. -/
def scanDispl : List ℕ → ℕ → List ℕ
  | [], _ => []
  | c :: cs, acc => acc :: scanDispl cs (acc + c)

/-- The static data built once at setup: grid geometry, the sample-plane node
sequence ordered by structured index, the gather distribution descriptor
(per-partition counts `sampleDistrib_` and offsets `displ_`), and the created
transform plans. -/
structure StaticData where
  geom : GridGeometry
  nodeMapSamp : List MeshNode
  sampleDistrib : List ℕ
  displ : List ℕ
  plans : List PlanSpec
deriving DecidableEq

/-- Modelled from the spec: the static data computed by a successful setup —
geometry from the discovered coordinates, the sample-plane node sequence
sorted by structured index `(j, i)`, the distribution descriptor from the
per-partition counts, and the plan set for the decoded boundary-condition
combination. -/
def computeStatic (cfg : ABLConfig) (mesh : List (List MeshNode)) : StaticData :=
  { geom := { imax := cfg.imax, jmax := cfg.jmax,
              dx := lookupX mesh 1 0 - lookupX mesh 0 0,
              dy := lookupY mesh 0 1 - lookupY mesh 0 0,
              zSample := cfg.zSample }
    nodeMapSamp := mesh.flatten.mergeSort (fun a b =>
      decide (a.iy < b.iy) || (a.iy == b.iy && decide (a.ix ≤ b.ix)))
    sampleDistrib := mesh.map List.length
    displ := scanDispl (mesh.map List.length) 0
    plans := createPlans (bcCombo cfg) cfg.imax cfg.jmax }

/-- Modelled from the spec: the checked part of setup — it fails with the
matching fatal `ConfigError` exactly when the node count disagrees with
`imax × jmax`, an index tag is duplicated or missing, the horizontal spacing
is non-uniform beyond tolerance, or a boundary-type value is illegal;
otherwise it returns the static data. -/
def setupChecked (cfg : ABLConfig) (mesh : List (List MeshNode)) :
    Except ConfigError StaticData :=
  if countOK cfg mesh = false then .error .badNodeCount
  else if indexTagsOK cfg mesh = false then .error .badIndexTags
  else if spacingOK cfg mesh = false then .error .nonUniformSpacing
  else if bcValuesOK cfg = false then .error .badBCType
  else .ok (computeStatic cfg mesh)

/-- The algorithm instance state: the `needToInitialize_` flag, the static
data (absent before first setup), and how many times the plan set has been
created and released. -/
structure ABLState where
  needInit : Bool
  staticData : Option StaticData
  plansCreated : ℕ
  plansReleased : ℕ
deriving DecidableEq

/-- A freshly constructed instance: not yet set up, no static data, no plans
created or released. -/
def freshState : ABLState :=
  { needInit := true, staticData := none, plansCreated := 0, plansReleased := 0 }

/-- Modelled from the spec: the `initialize()` member — on the first call it
computes the static data, creates the plan set and clears the
`needToInitialize_` flag; on every later call it is a no-op. -/
def setupOnce (cfg : ABLConfig) (mesh : List (List MeshNode)) (s : ABLState) : ABLState :=
  if s.needInit then
    { needInit := false
      staticData := some (computeStatic cfg mesh)
      plansCreated := s.plansCreated + 1
      plansReleased := s.plansReleased }
  else s

/-- Modelled from the spec: the `execute()` member — it first triggers setup
if it has not yet been performed, then runs one gather/solve/scatter cycle,
which reads but never rewrites the static data. -/
def executeStep (cfg : ABLConfig) (mesh : List (List MeshNode)) (s : ABLState) : ABLState :=
  setupOnce cfg mesh s

/-- Modelled from the spec: the destructor — it releases the plan set exactly
once. -/
def destroyStep (s : ABLState) : ABLState :=
  { s with plansReleased := s.plansReleased + 1 }

/-- An operation invokable on a live instance. -/
inductive ABLOp where
  | setup (cfg : ABLConfig) (mesh : List (List MeshNode))
  | exec (cfg : ABLConfig) (mesh : List (List MeshNode))

/-- Run one operation. -/
def stepOp (op : ABLOp) (s : ABLState) : ABLState :=
  match op with
  | .setup cfg mesh => setupOnce cfg mesh s
  | .exec cfg mesh => executeStep cfg mesh s

/-- Run a sequence of operations. -/
def runOps (ops : List ABLOp) (s : ABLState) : ABLState :=
  ops.foldl (fun t op => stepOp op t) s

/-- The total node count of the sample plane (all partitions together). -/
def totalNodes (mesh : List (List MeshNode)) : ℕ :=
  mesh.flatten.length

/-! ### Helper lemmas: character sums and separable-transform algebra -/

/-- Orthogonality sum of the standard additive character: summing
`e^(2πi·t·i/M)` over a full period gives `M` at `t = 0` and `0` otherwise. -/
lemma sum_stdAddChar_eq (t : ZMod M) :
    ∑ i : ZMod M, ZMod.stdAddChar (t * i) = if t = 0 then (M : ℂ) else 0 := by
  split_ifs with h
  · subst h
    simp [ZMod.card]
  · have h1 : (AddChar.mulShift (ZMod.stdAddChar (N := M)) t) ≠ 1 :=
      ZMod.isPrimitive_stdAddChar M h
    simpa [AddChar.mulShift_apply] using AddChar.sum_eq_zero_of_ne_one h1

/-- Pulling a constant factor out of a kernel sum. -/
lemma sum_mul_const_left {α : Type} [Fintype α] (K : α → ℂ) (c : ℂ) (F : α → ℂ) :
    ∑ l : α, K l * (c * F l) = c * ∑ l : α, K l * F l := by
  rw [Finset.mul_sum]
  exact Finset.sum_congr rfl fun l _ => by ring

/-- Interchanging a kernel sum with an inner linear combination. -/
lemma sum_mul_swap {α β : Type} [Fintype α] [Fintype β]
    (K : α → ℂ) (A : β → ℂ) (B : β → α → ℂ) :
    ∑ l : α, K l * ∑ p : β, A p * B p l = ∑ p : β, A p * ∑ l : α, K l * B p l := by
  simp only [Finset.mul_sum]
  rw [Finset.sum_comm]
  exact Finset.sum_congr rfl fun p _ => Finset.sum_congr rfl fun l _ => by ring

/-- One-dimensional inversion sum: synthesising the analysis coefficients of
`φ` reproduces `M · φ`. -/
lemma sum_char_mul_dftSum (φ : ZMod M → ℂ) (p : ZMod M) :
    ∑ k : ZMod M, ZMod.stdAddChar (p * k) *
      ∑ j : ZMod M, ZMod.stdAddChar (-(j * k)) * φ j = (M : ℂ) * φ p := by
  have key : ∀ k : ZMod M, ZMod.stdAddChar (p * k) *
      ∑ j : ZMod M, ZMod.stdAddChar (-(j * k)) * φ j
      = ∑ j : ZMod M, ZMod.stdAddChar ((p - j) * k) * φ j := by
    intro k
    rw [Finset.mul_sum]
    refine Finset.sum_congr rfl fun j _ => ?_
    rw [← mul_assoc, ← AddChar.map_add_eq_mul]
    congr 2
    ring
  simp only [key]
  rw [Finset.sum_comm]
  have inner : ∀ j : ZMod M, ∑ k : ZMod M, ZMod.stdAddChar ((p - j) * k) * φ j
      = (if p = j then (M : ℂ) else 0) * φ j := by
    intro j
    rw [← Finset.sum_mul, sum_stdAddChar_eq]
    simp only [sub_eq_zero]
  simp only [inner, ite_mul, zero_mul]
  simp [Finset.sum_ite_eq]

/-- One-dimensional projection sum: analysing a synthesised field recovers
`M` times the coefficient. -/
lemma sum_charNeg_mul_idftSum (c : ZMod M → ℂ) (k : ZMod M) :
    ∑ p : ZMod M, ZMod.stdAddChar (-(p * k)) *
      ∑ m : ZMod M, ZMod.stdAddChar (p * m) * c m = (M : ℂ) * c k := by
  have key : ∀ p : ZMod M, ZMod.stdAddChar (-(p * k)) *
      ∑ m : ZMod M, ZMod.stdAddChar (p * m) * c m
      = ∑ m : ZMod M, ZMod.stdAddChar ((m - k) * p) * c m := by
    intro p
    rw [Finset.mul_sum]
    refine Finset.sum_congr rfl fun m _ => ?_
    rw [← mul_assoc, ← AddChar.map_add_eq_mul]
    congr 2
    ring
  simp only [key]
  rw [Finset.sum_comm]
  have inner : ∀ m : ZMod M, ∑ p : ZMod M, ZMod.stdAddChar ((m - k) * p) * c m
      = (if m = k then (M : ℂ) else 0) * c m := by
    intro m
    rw [← Finset.sum_mul, sum_stdAddChar_eq]
    simp only [sub_eq_zero]
  simp only [inner, ite_mul, zero_mul]
  simp [Finset.sum_ite_eq']

/-- A separable transform maps the zero plane to the zero plane. -/
lemma kern2T_zero (cst : ℂ) (KA : ZMod M → ZMod M → ℂ) (KB : ZMod N → ZMod N → ℂ) :
    kern2T cst KA KB (fun _ _ => (0 : ℂ)) = fun _ _ => 0 := by
  funext a b
  simp [kern2T]

/-- A separable transform evaluated on a plane supported at the single mode
`(m₀, n₀)`. -/
lemma kern2T_delta (cst : ℂ) (KA : ZMod M → ZMod M → ℂ) (KB : ZMod N → ZMod N → ℂ)
    (c : ℂ) (m₀ : ZMod M) (n₀ : ZMod N) (a : ZMod M) (b : ZMod N) :
    kern2T cst KA KB (fun p q => if p = m₀ ∧ q = n₀ then c else 0) a b
      = cst * (KA a m₀ * (KB b n₀ * c)) := by
  have h1 : ∀ p : ZMod M, (∑ q : ZMod N, KB b q * (if p = m₀ ∧ q = n₀ then c else 0))
      = if p = m₀ then KB b n₀ * c else 0 := by
    intro p
    by_cases hp : p = m₀
    · simp only [hp, true_and, mul_ite, mul_zero]
      simp only [Finset.sum_ite_eq', Finset.mem_univ, if_true]
    · simp [hp]
  show cst * (∑ p : ZMod M, KA a p * ∑ q : ZMod N, KB b q * (if p = m₀ ∧ q = n₀ then c else 0))
      = cst * (KA a m₀ * (KB b n₀ * c))
  congr 1
  rw [show (∑ p : ZMod M, KA a p * ∑ q : ZMod N, KB b q * (if p = m₀ ∧ q = n₀ then c else 0))
      = ∑ p : ZMod M, KA a p * (if p = m₀ then KB b n₀ * c else 0) from
    Finset.sum_congr rfl fun p _ => by rw [h1 p]]
  simp only [mul_ite, mul_zero]
  simp only [Finset.sum_ite_eq', Finset.mem_univ, if_true]

/-- A separable transform is linear in the plane field. -/
lemma kern2T_lin (cst : ℂ) (KA : ZMod M → ZMod M → ℂ) (KB : ZMod N → ZMod N → ℂ)
    (x y : ℂ) (f g : Plane M N) (a : ZMod M) (b : ZMod N) :
    kern2T cst KA KB (fun p q => x * f p q + y * g p q) a b
      = x * kern2T cst KA KB f a b + y * kern2T cst KA KB g a b := by
  simp only [kern2T]
  have h1 : ∀ p : ZMod M, (∑ q : ZMod N, KB b q * (x * f p q + y * g p q))
      = x * (∑ q : ZMod N, KB b q * f p q) + y * (∑ q : ZMod N, KB b q * g p q) := by
    intro p
    rw [Finset.mul_sum, Finset.mul_sum, ← Finset.sum_add_distrib]
    exact Finset.sum_congr rfl fun q _ => by ring
  simp only [h1]
  have h2 : (∑ p : ZMod M, KA a p *
      (x * (∑ q : ZMod N, KB b q * f p q) + y * (∑ q : ZMod N, KB b q * g p q)))
      = x * (∑ p : ZMod M, KA a p * ∑ q : ZMod N, KB b q * f p q)
        + y * (∑ p : ZMod M, KA a p * ∑ q : ZMod N, KB b q * g p q) := by
    rw [Finset.mul_sum, Finset.mul_sum, ← Finset.sum_add_distrib]
    exact Finset.sum_congr rfl fun p _ => by ring
  rw [h2]
  ring

/-- Forward-then-inverse round trip of the full-plane 2D Fourier pair. -/
lemma fourier2dB_fourier2dF (f : Plane M N) : fourier2dB (fourier2dF f) = f := by
  funext p q
  have hstep : ∀ k : ZMod M,
      (∑ l : ZMod N, ZMod.stdAddChar (q * l) *
        ((((M : ℂ) * (N : ℂ)))⁻¹ * ∑ p' : ZMod M, ZMod.stdAddChar (-(p' * k)) *
          ∑ q' : ZMod N, ZMod.stdAddChar (-(q' * l)) * f p' q'))
      = ((((M : ℂ) * (N : ℂ)))⁻¹ * (N : ℂ)) *
          ∑ p' : ZMod M, ZMod.stdAddChar (-(p' * k)) * f p' q := by
    intro k
    rw [sum_mul_const_left, sum_mul_swap]
    rw [show (∑ p' : ZMod M, ZMod.stdAddChar (-(p' * k)) *
          ∑ l : ZMod N, ZMod.stdAddChar (q * l) *
            ∑ q' : ZMod N, ZMod.stdAddChar (-(q' * l)) * f p' q')
        = ∑ p' : ZMod M, ZMod.stdAddChar (-(p' * k)) * ((N : ℂ) * f p' q) from
      Finset.sum_congr rfl fun p' _ => by rw [sum_char_mul_dftSum (fun q' => f p' q') q]]
    rw [sum_mul_const_left]
    ring
  show (1 : ℂ) * ∑ k : ZMod M, ZMod.stdAddChar (p * k) *
      ∑ l : ZMod N, ZMod.stdAddChar (q * l) *
        ((((M : ℂ) * (N : ℂ)))⁻¹ * ∑ p' : ZMod M, ZMod.stdAddChar (-(p' * k)) *
          ∑ q' : ZMod N, ZMod.stdAddChar (-(q' * l)) * f p' q') = f p q
  rw [one_mul]
  rw [show (∑ k : ZMod M, ZMod.stdAddChar (p * k) *
      ∑ l : ZMod N, ZMod.stdAddChar (q * l) *
        ((((M : ℂ) * (N : ℂ)))⁻¹ * ∑ p' : ZMod M, ZMod.stdAddChar (-(p' * k)) *
          ∑ q' : ZMod N, ZMod.stdAddChar (-(q' * l)) * f p' q'))
      = ∑ k : ZMod M, ZMod.stdAddChar (p * k) *
          (((((M : ℂ) * (N : ℂ)))⁻¹ * (N : ℂ)) *
            ∑ p' : ZMod M, ZMod.stdAddChar (-(p' * k)) * f p' q) from
    Finset.sum_congr rfl fun k _ => by rw [hstep k]]
  rw [sum_mul_const_left, sum_char_mul_dftSum (fun p' => f p' q) p]
  have hM : ((M : ℕ) : ℂ) ≠ 0 := Nat.cast_ne_zero.mpr (NeZero.ne M)
  have hN : ((N : ℕ) : ℂ) ≠ 0 := Nat.cast_ne_zero.mpr (NeZero.ne N)
  field_simp
  ring

/-- Inverse-then-forward round trip of the full-plane 2D Fourier pair. -/
lemma fourier2dF_fourier2dB (c : Plane M N) : fourier2dF (fourier2dB c) = c := by
  funext k l
  have hstep : ∀ p : ZMod M,
      (∑ q : ZMod N, ZMod.stdAddChar (-(q * l)) *
        ((1 : ℂ) * ∑ k' : ZMod M, ZMod.stdAddChar (p * k') *
          ∑ l' : ZMod N, ZMod.stdAddChar (q * l') * c k' l'))
      = (N : ℂ) * ∑ k' : ZMod M, ZMod.stdAddChar (p * k') * c k' l := by
    intro p
    simp only [one_mul]
    rw [sum_mul_swap]
    rw [show (∑ k' : ZMod M, ZMod.stdAddChar (p * k') *
          ∑ q : ZMod N, ZMod.stdAddChar (-(q * l)) *
            ∑ l' : ZMod N, ZMod.stdAddChar (q * l') * c k' l')
        = ∑ k' : ZMod M, ZMod.stdAddChar (p * k') * ((N : ℂ) * c k' l) from
      Finset.sum_congr rfl fun k' _ => by rw [sum_charNeg_mul_idftSum (fun l' => c k' l') l]]
    rw [sum_mul_const_left]
  show (((M : ℂ) * (N : ℂ)))⁻¹ * ∑ p : ZMod M, ZMod.stdAddChar (-(p * k)) *
      ∑ q : ZMod N, ZMod.stdAddChar (-(q * l)) *
        ((1 : ℂ) * ∑ k' : ZMod M, ZMod.stdAddChar (p * k') *
          ∑ l' : ZMod N, ZMod.stdAddChar (q * l') * c k' l') = c k l
  rw [show (∑ p : ZMod M, ZMod.stdAddChar (-(p * k)) *
      ∑ q : ZMod N, ZMod.stdAddChar (-(q * l)) *
        ((1 : ℂ) * ∑ k' : ZMod M, ZMod.stdAddChar (p * k') *
          ∑ l' : ZMod N, ZMod.stdAddChar (q * l') * c k' l'))
      = ∑ p : ZMod M, ZMod.stdAddChar (-(p * k)) *
          ((N : ℂ) * ∑ k' : ZMod M, ZMod.stdAddChar (p * k') * c k' l) from
    Finset.sum_congr rfl fun p _ => by rw [hstep p]]
  rw [sum_mul_const_left, sum_charNeg_mul_idftSum (fun k' => c k' l) k]
  have hM : ((M : ℕ) : ℂ) ≠ 0 := Nat.cast_ne_zero.mpr (NeZero.ne M)
  have hN : ((N : ℕ) : ℂ) ≠ 0 := Nat.cast_ne_zero.mpr (NeZero.ne N)
  field_simp
  ring

/-- The harmonic relation maps a zero coefficient to zero coefficients. -/
lemma harmonicRelation_zero (deltaZ kx ky : ℝ) :
    harmonicRelation deltaZ kx ky 0 = (0, 0, 0) := by
  simp [harmonicRelation]

/-- The zero cosine mode is the constant basis function. -/
lemma cosK_zero (M : ℕ) [NeZero M] (p : ZMod M) : cosK M 0 p = 1 := by
  simp [cosK, ZMod.val_zero]

/-- The zero sine mode vanishes identically. -/
lemma sinK_zero (M : ℕ) [NeZero M] (p : ZMod M) : sinK M 0 p = 0 := by
  simp [sinK, ZMod.val_zero]

/-- Zero-input behaviour of the periodic-periodic solve. -/
lemma zeroInputPP (xL yL deltaZ : ℝ) (UAvg : ℝ × ℝ) (p : ZMod M) (q : ZMod N) :
    (potentialBCPeriodicPeriodic xL yL deltaZ (fun _ _ => 0) UAvg).u p q = ((UAvg.1 : ℝ) : ℂ)
    ∧ (potentialBCPeriodicPeriodic xL yL deltaZ (fun _ _ => 0) UAvg).v p q = ((UAvg.2 : ℝ) : ℂ)
    ∧ (potentialBCPeriodicPeriodic xL yL deltaZ (fun _ _ => 0) UAvg).w p q = 0 := by
  have hF0 : fourier2dF (M := M) (N := N) (fun _ _ => 0) = fun _ _ => 0 := by
    rw [fourier2dF]; exact kern2T_zero _ _ _
  have hu : (fun m n => (solveModePP (M := M) (N := N) xL yL deltaZ UAvg m n 0).1)
      = fun m n => if m = 0 ∧ n = 0 then ((UAvg.1 : ℝ) : ℂ) else 0 := by
    funext m n
    by_cases h : m = 0 ∧ n = 0 <;> simp [solveModePP, h, harmonicRelation]
  have hv : (fun m n => (solveModePP (M := M) (N := N) xL yL deltaZ UAvg m n 0).2.1)
      = fun m n => if m = 0 ∧ n = 0 then ((UAvg.2 : ℝ) : ℂ) else 0 := by
    funext m n
    by_cases h : m = 0 ∧ n = 0 <;> simp [solveModePP, h, harmonicRelation]
  have hw : (fun m n => (solveModePP (M := M) (N := N) xL yL deltaZ UAvg m n 0).2.2)
      = fun m n => if m = 0 ∧ n = 0 then (0 : ℂ) else 0 := by
    funext m n
    by_cases h : m = 0 ∧ n = 0 <;> simp [solveModePP, h, harmonicRelation]
  refine ⟨?_, ?_, ?_⟩
  · simp only [potentialBCPeriodicPeriodic, hF0]
    rw [hu, fourier2dB, kern2T_delta]
    simp
  · simp only [potentialBCPeriodicPeriodic, hF0]
    rw [hv, fourier2dB, kern2T_delta]
    simp
  · simp only [potentialBCPeriodicPeriodic, hF0]
    rw [hw, fourier2dB, kern2T_delta]
    simp

/-- Zero-input behaviour of the inflow-periodic solve. -/
lemma zeroInputIP (xL yL deltaZ : ℝ) (UAvg : ℝ × ℝ) (p : ZMod M) (q : ZMod N) :
    (potentialBCInflowPeriodic xL yL deltaZ (fun _ _ => 0) UAvg).u p q = ((UAvg.1 : ℝ) : ℂ)
    ∧ (potentialBCInflowPeriodic xL yL deltaZ (fun _ _ => 0) UAvg).v p q = ((UAvg.2 : ℝ) : ℂ)
    ∧ (potentialBCInflowPeriodic xL yL deltaZ (fun _ _ => 0) UAvg).w p q = 0 := by
  have hF0 : sinxFourieryF (M := M) (N := N) (fun _ _ => 0) = fun _ _ => 0 := by
    rw [sinxFourieryF]; exact kern2T_zero _ _ _
  have hu : (fun m n => (solveModeIP (M := M) (N := N) xL yL deltaZ UAvg m n 0).1)
      = fun m n => if m = 0 ∧ n = 0 then ((UAvg.1 : ℝ) : ℂ) else 0 := by
    funext m n
    by_cases h : m = 0 ∧ n = 0 <;> simp [solveModeIP, h, harmonicRelation]
  have hv : (fun m n => (solveModeIP (M := M) (N := N) xL yL deltaZ UAvg m n 0).2.1)
      = fun m n => if m = 0 ∧ n = 0 then ((UAvg.2 : ℝ) : ℂ) else 0 := by
    funext m n
    by_cases h : m = 0 ∧ n = 0 <;> simp [solveModeIP, h, harmonicRelation]
  have hw : (fun m n => (solveModeIP (M := M) (N := N) xL yL deltaZ UAvg m n 0).2.2)
      = fun m n => if m = 0 ∧ n = 0 then (0 : ℂ) else 0 := by
    funext m n
    by_cases h : m = 0 ∧ n = 0 <;> simp [solveModeIP, h, harmonicRelation]
  refine ⟨?_, ?_, ?_⟩
  · simp only [potentialBCInflowPeriodic, hF0]
    rw [hu, cosxFourieryB, kern2T_delta]
    simp [cosK_zero]
  · simp only [potentialBCInflowPeriodic, hF0]
    rw [hv, cosxFourieryB, kern2T_delta]
    simp [cosK_zero]
  · simp only [potentialBCInflowPeriodic, hF0]
    rw [hw, sinxFourieryB, kern2T_delta]
    simp

/-- Zero-input behaviour of the inflow-inflow solve. -/
lemma zeroInputII (xL yL deltaZ : ℝ) (UAvg : ℝ × ℝ) (p : ZMod M) (q : ZMod N) :
    (potentialBCInflowInflow xL yL deltaZ (fun _ _ => 0) UAvg).u p q = ((UAvg.1 : ℝ) : ℂ)
    ∧ (potentialBCInflowInflow xL yL deltaZ (fun _ _ => 0) UAvg).v p q = ((UAvg.2 : ℝ) : ℂ)
    ∧ (potentialBCInflowInflow xL yL deltaZ (fun _ _ => 0) UAvg).w p q = 0 := by
  have hF0 : sinSin2F (M := M) (N := N) (fun _ _ => 0) = fun _ _ => 0 := by
    rw [sinSin2F]; exact kern2T_zero _ _ _
  have hu : (fun m n => (solveModeII (M := M) (N := N) xL yL deltaZ UAvg m n 0).1)
      = fun m n => if m = 0 ∧ n = 0 then ((UAvg.1 : ℝ) : ℂ) else 0 := by
    funext m n
    by_cases h : m = 0 ∧ n = 0 <;> simp [solveModeII, h, harmonicRelation]
  have hv : (fun m n => (solveModeII (M := M) (N := N) xL yL deltaZ UAvg m n 0).2.1)
      = fun m n => if m = 0 ∧ n = 0 then ((UAvg.2 : ℝ) : ℂ) else 0 := by
    funext m n
    by_cases h : m = 0 ∧ n = 0 <;> simp [solveModeII, h, harmonicRelation]
  have hw : (fun m n => (solveModeII (M := M) (N := N) xL yL deltaZ UAvg m n 0).2.2)
      = fun m n => if m = 0 ∧ n = 0 then (0 : ℂ) else 0 := by
    funext m n
    by_cases h : m = 0 ∧ n = 0 <;> simp [solveModeII, h, harmonicRelation]
  refine ⟨?_, ?_, ?_⟩
  · simp only [potentialBCInflowInflow, hF0]
    rw [hu, cosCos2B, kern2T_delta]
    simp [cosK_zero]
  · simp only [potentialBCInflowInflow, hF0]
    rw [hv, cosCos2B, kern2T_delta]
    simp [cosK_zero]
  · simp only [potentialBCInflowInflow, hF0]
    rw [hw, sinSin2B, kern2T_delta]
    simp

/-- The signed frequency of a periodic mode vanishes exactly at the zero
mode. -/
lemma fftFreq_eq_zero_iff {M : ℕ} [NeZero M] (m : ZMod M) : fftFreq m = 0 ↔ m = 0 := by
  have hlt : m.val < M := ZMod.val_lt m
  have hval : m.val = 0 ↔ m = 0 := ZMod.val_eq_zero m
  unfold fftFreq
  split_ifs with h
  · rw [Nat.cast_eq_zero]
    exact hval
  · constructor
    · intro h0
      exfalso
      omega
    · intro h0
      have hv0 : m.val = 0 := hval.mpr h0
      omega

/-- The physical wavenumber of a periodic direction vanishes exactly at the
zero mode. -/
lemma kPeriodic_eq_zero_iff {M : ℕ} [NeZero M] (L : ℝ) (hL : 0 < L) (m : ZMod M) :
    kPeriodic L m = 0 ↔ m = 0 := by
  unfold kPeriodic
  rw [div_eq_zero_iff]
  constructor
  · rintro (h | hL0)
    · rcases mul_eq_zero.mp h with h' | h'
      · exact absurd h' (by positivity)
      · rw [← fftFreq_eq_zero_iff m]
        exact_mod_cast h'
    · exact absurd hL0 hL.ne'
  · intro h0
    left
    rw [show fftFreq m = 0 from (fftFreq_eq_zero_iff m).mpr h0]
    simp

/-- The physical wavenumber of an inflow direction vanishes exactly at the
zero mode. -/
lemma kInflow_eq_zero_iff {M : ℕ} [NeZero M] (L : ℝ) (hL : 0 < L) (m : ZMod M) :
    kInflow L m = 0 ↔ m = 0 := by
  unfold kInflow
  rw [div_eq_zero_iff]
  constructor
  · rintro (h | hL0)
    · rcases mul_eq_zero.mp h with h' | h'
      · exact absurd h' Real.pi_ne_zero
      · rw [← ZMod.val_eq_zero m]
        exact_mod_cast h'
    · exact absurd hL0 hL.ne'
  · intro h0
    left
    subst h0
    simp [ZMod.val_zero]

/-- The wavenumber magnitude is nonzero whenever one component is. -/
lemma kMag_ne_zero (kx ky : ℝ) (h : kx ≠ 0 ∨ ky ≠ 0) : kMag kx ky ≠ 0 := by
  have hpos : 0 < kx ^ 2 + ky ^ 2 := by
    rcases h with h | h
    · have h2 : 0 < kx ^ 2 := by positivity
      nlinarith [sq_nonneg ky]
    · have h2 : 0 < ky ^ 2 := by positivity
      nlinarith [sq_nonneg kx]
  unfold kMag
  exact (Real.sqrt_pos.mpr hpos).ne'

/-- The inverse 2D Fourier transform of a plane supported at a single mode is
the corresponding complex sinusoid. -/
lemma fourier2dB_delta (c : ℂ) (m₀ : ZMod M) (n₀ : ZMod N) :
    fourier2dB (M := M) (N := N) (fun k l => if k = m₀ ∧ l = n₀ then c else 0)
      = fun p q => ZMod.stdAddChar (p * m₀) * (ZMod.stdAddChar (q * n₀) * c) := by
  funext p q
  rw [fourier2dB, kern2T_delta, one_mul]

/-- The forward 2D Fourier transform concentrates a single sinusoid of
amplitude `A` at wavenumber pair `(m₀, 0)` into the single coefficient `A` at
that mode. -/
lemma fourier2dF_sinusoid (A : ℝ) (m₀ : ZMod M) :
    fourier2dF (M := M) (N := N) (wSampSinusoid A m₀)
      = fun k l => if k = m₀ ∧ l = 0 then ((A : ℝ) : ℂ) else 0 := by
  have h : wSampSinusoid (M := M) (N := N) A m₀
      = fourier2dB (fun k l => if k = m₀ ∧ l = 0 then ((A : ℝ) : ℂ) else 0) := by
    rw [fourier2dB_delta]
    funext p q
    simp only [wSampSinusoid, mul_comm p m₀, mul_zero, AddChar.map_zero_eq_one, one_mul]
    ring
  rw [h, fourier2dF_fourier2dB]

/-- Linearity of one solve pipeline: a linear forward transform, a per-mode
solver jointly linear in the mean velocity and the coefficient, and a linear
inverse transform compose to a linear solve. -/
lemma pipeline_lin (TF TB : Plane M N → Plane M N)
    (hTF : ∀ (x y : ℂ) (f g : Plane M N) (m : ZMod M) (n : ZMod N),
      TF (fun p q => x * f p q + y * g p q) m n = x * TF f m n + y * TF g m n)
    (hTB : ∀ (x y : ℂ) (f g : Plane M N) (m : ZMod M) (n : ZMod N),
      TB (fun p q => x * f p q + y * g p q) m n = x * TB f m n + y * TB g m n)
    (S : ℝ × ℝ → ZMod M → ZMod N → ℂ → ℂ)
    (a b : ℝ) (U1 U2 : ℝ × ℝ) (w1 w2 : Plane M N)
    (hS : ∀ (z1 z2 : ℂ) (m : ZMod M) (n : ZMod N),
      S (a * U1.1 + b * U2.1, a * U1.2 + b * U2.2) m n
          (((a : ℝ) : ℂ) * z1 + ((b : ℝ) : ℂ) * z2)
        = ((a : ℝ) : ℂ) * S U1 m n z1 + ((b : ℝ) : ℂ) * S U2 m n z2)
    (p : ZMod M) (q : ZMod N) :
    TB (fun m n => S (a * U1.1 + b * U2.1, a * U1.2 + b * U2.2) m n
        (TF (fun p' q' => ((a : ℝ) : ℂ) * w1 p' q' + ((b : ℝ) : ℂ) * w2 p' q') m n)) p q
      = ((a : ℝ) : ℂ) * TB (fun m n => S U1 m n (TF w1 m n)) p q
        + ((b : ℝ) : ℂ) * TB (fun m n => S U2 m n (TF w2 m n)) p q := by
  have hC : (fun m n => S (a * U1.1 + b * U2.1, a * U1.2 + b * U2.2) m n
      (TF (fun p' q' => ((a : ℝ) : ℂ) * w1 p' q' + ((b : ℝ) : ℂ) * w2 p' q') m n))
      = fun m n => ((a : ℝ) : ℂ) * S U1 m n (TF w1 m n)
          + ((b : ℝ) : ℂ) * S U2 m n (TF w2 m n) := by
    funext m n
    rw [hTF ((a : ℝ) : ℂ) ((b : ℝ) : ℂ) w1 w2 m n, hS (TF w1 m n) (TF w2 m n) m n]
  rw [hC]
  exact hTB _ _ _ _ p q

/-- Joint linearity of the periodic-periodic per-mode solver in the mean
velocity and the coefficient, componentwise. -/
lemma solveModePP_lin (xL yL deltaZ a b : ℝ) (U1 U2 : ℝ × ℝ) (z1 z2 : ℂ)
    (m : ZMod M) (n : ZMod N) :
    (solveModePP (M := M) (N := N) xL yL deltaZ
        (a * U1.1 + b * U2.1, a * U1.2 + b * U2.2) m n
        (((a : ℝ) : ℂ) * z1 + ((b : ℝ) : ℂ) * z2)).1
      = ((a : ℝ) : ℂ) * (solveModePP xL yL deltaZ U1 m n z1).1
        + ((b : ℝ) : ℂ) * (solveModePP xL yL deltaZ U2 m n z2).1
    ∧ (solveModePP (M := M) (N := N) xL yL deltaZ
        (a * U1.1 + b * U2.1, a * U1.2 + b * U2.2) m n
        (((a : ℝ) : ℂ) * z1 + ((b : ℝ) : ℂ) * z2)).2.1
      = ((a : ℝ) : ℂ) * (solveModePP xL yL deltaZ U1 m n z1).2.1
        + ((b : ℝ) : ℂ) * (solveModePP xL yL deltaZ U2 m n z2).2.1
    ∧ (solveModePP (M := M) (N := N) xL yL deltaZ
        (a * U1.1 + b * U2.1, a * U1.2 + b * U2.2) m n
        (((a : ℝ) : ℂ) * z1 + ((b : ℝ) : ℂ) * z2)).2.2
      = ((a : ℝ) : ℂ) * (solveModePP xL yL deltaZ U1 m n z1).2.2
        + ((b : ℝ) : ℂ) * (solveModePP xL yL deltaZ U2 m n z2).2.2 := by
  by_cases h : m = 0 ∧ n = 0
  · refine ⟨?_, ?_, ?_⟩ <;>
      (simp only [solveModePP, if_pos h]; push_cast; ring)
  · refine ⟨?_, ?_, ?_⟩ <;>
      (simp only [solveModePP, if_neg h, harmonicRelation]; ring)

/-- Joint linearity of the inflow-periodic per-mode solver, componentwise. -/
lemma solveModeIP_lin (xL yL deltaZ a b : ℝ) (U1 U2 : ℝ × ℝ) (z1 z2 : ℂ)
    (m : ZMod M) (n : ZMod N) :
    (solveModeIP (M := M) (N := N) xL yL deltaZ
        (a * U1.1 + b * U2.1, a * U1.2 + b * U2.2) m n
        (((a : ℝ) : ℂ) * z1 + ((b : ℝ) : ℂ) * z2)).1
      = ((a : ℝ) : ℂ) * (solveModeIP xL yL deltaZ U1 m n z1).1
        + ((b : ℝ) : ℂ) * (solveModeIP xL yL deltaZ U2 m n z2).1
    ∧ (solveModeIP (M := M) (N := N) xL yL deltaZ
        (a * U1.1 + b * U2.1, a * U1.2 + b * U2.2) m n
        (((a : ℝ) : ℂ) * z1 + ((b : ℝ) : ℂ) * z2)).2.1
      = ((a : ℝ) : ℂ) * (solveModeIP xL yL deltaZ U1 m n z1).2.1
        + ((b : ℝ) : ℂ) * (solveModeIP xL yL deltaZ U2 m n z2).2.1
    ∧ (solveModeIP (M := M) (N := N) xL yL deltaZ
        (a * U1.1 + b * U2.1, a * U1.2 + b * U2.2) m n
        (((a : ℝ) : ℂ) * z1 + ((b : ℝ) : ℂ) * z2)).2.2
      = ((a : ℝ) : ℂ) * (solveModeIP xL yL deltaZ U1 m n z1).2.2
        + ((b : ℝ) : ℂ) * (solveModeIP xL yL deltaZ U2 m n z2).2.2 := by
  by_cases h : m = 0 ∧ n = 0
  · refine ⟨?_, ?_, ?_⟩ <;>
      (simp only [solveModeIP, if_pos h]; push_cast; ring)
  · refine ⟨?_, ?_, ?_⟩ <;>
      (simp only [solveModeIP, if_neg h, harmonicRelation]; ring)

/-- Joint linearity of the inflow-inflow per-mode solver, componentwise. -/
lemma solveModeII_lin (xL yL deltaZ a b : ℝ) (U1 U2 : ℝ × ℝ) (z1 z2 : ℂ)
    (m : ZMod M) (n : ZMod N) :
    (solveModeII (M := M) (N := N) xL yL deltaZ
        (a * U1.1 + b * U2.1, a * U1.2 + b * U2.2) m n
        (((a : ℝ) : ℂ) * z1 + ((b : ℝ) : ℂ) * z2)).1
      = ((a : ℝ) : ℂ) * (solveModeII xL yL deltaZ U1 m n z1).1
        + ((b : ℝ) : ℂ) * (solveModeII xL yL deltaZ U2 m n z2).1
    ∧ (solveModeII (M := M) (N := N) xL yL deltaZ
        (a * U1.1 + b * U2.1, a * U1.2 + b * U2.2) m n
        (((a : ℝ) : ℂ) * z1 + ((b : ℝ) : ℂ) * z2)).2.1
      = ((a : ℝ) : ℂ) * (solveModeII xL yL deltaZ U1 m n z1).2.1
        + ((b : ℝ) : ℂ) * (solveModeII xL yL deltaZ U2 m n z2).2.1
    ∧ (solveModeII (M := M) (N := N) xL yL deltaZ
        (a * U1.1 + b * U2.1, a * U1.2 + b * U2.2) m n
        (((a : ℝ) : ℂ) * z1 + ((b : ℝ) : ℂ) * z2)).2.2
      = ((a : ℝ) : ℂ) * (solveModeII xL yL deltaZ U1 m n z1).2.2
        + ((b : ℝ) : ℂ) * (solveModeII xL yL deltaZ U2 m n z2).2.2 := by
  by_cases h : m = 0 ∧ n = 0
  · refine ⟨?_, ?_, ?_⟩ <;>
      (simp only [solveModeII, if_pos h]; push_cast; ring)
  · refine ⟨?_, ?_, ?_⟩ <;>
      (simp only [solveModeII, if_neg h, harmonicRelation]; ring)

/-- After any setup call the not-yet-set-up flag is cleared. -/
lemma setupOnce_needInit (cfg : ABLConfig) (mesh : List (List MeshNode)) (s : ABLState) :
    (setupOnce cfg mesh s).needInit = false := by
  unfold setupOnce
  split_ifs with h
  · rfl
  · simpa using h

/-- Setup is a no-op on an already set-up instance. -/
lemma setupOnce_noop (cfg : ABLConfig) (mesh : List (List MeshNode)) (s : ABLState)
    (h : s.needInit = false) : setupOnce cfg mesh s = s := by
  unfold setupOnce
  rw [h]
  simp

/-- Every operation is a state no-op on an already set-up instance. -/
lemma stepOp_noop (op : ABLOp) (s : ABLState) (h : s.needInit = false) :
    stepOp op s = s := by
  cases op with
  | setup cfg mesh => exact setupOnce_noop cfg mesh s h
  | exec cfg mesh => exact setupOnce_noop cfg mesh s h

/-- No operation sequence changes the state of an already set-up instance. -/
lemma runOps_noop (ops : List ABLOp) (s : ABLState) (h : s.needInit = false) :
    runOps ops s = s := by
  induction ops with
  | nil => rfl
  | cons op ops ih =>
    show runOps ops (stepOp op s) = s
    rw [stepOp_noop op s h]
    exact ih

/-- Length of the offsets scan. -/
lemma scanDispl_length (cs : List ℕ) (acc : ℕ) :
    (scanDispl cs acc).length = cs.length := by
  induction cs generalizing acc with
  | nil => rfl
  | cons c cs ih => simp [scanDispl, ih]

/-- Each offset produced by the scan is the running total of the counts
before it. -/
lemma scanDispl_get (cs : List ℕ) (acc : ℕ) (i : ℕ)
    (h : i < (scanDispl cs acc).length) :
    (scanDispl cs acc).get ⟨i, h⟩ = acc + (cs.take i).sum := by
  induction cs generalizing acc i with
  | nil => simp [scanDispl] at h
  | cons c cs ih =>
    cases i with
    | zero => simp [scanDispl]
    | succ i =>
      have h' : i < (scanDispl cs (acc + c)).length := by
        have := h
        simp [scanDispl, scanDispl_length] at this ⊢
        omega
      show (scanDispl (c :: cs) acc).get ⟨i + 1, h⟩ = acc + ((c :: cs).take (i + 1)).sum
      have hcons : scanDispl (c :: cs) acc = acc :: scanDispl cs (acc + c) := rfl
      rw [List.get_of_eq hcons, List.get_cons_succ, ih (acc + c) i h']
      rw [List.take_succ_cons, List.sum_cons]
      omega

/-! ### Claim theorems -/

/-- C1: for each of the three boundary-condition variants, if the
sampling-plane input is all zeros, then at every boundary-plane node the
returned `uBC` equals the x-component of the supplied mean velocity, `vBC`
equals its y-component, and `wBC` equals zero. -/
theorem claim_C1_zero_input (xL yL deltaZ : ℝ) (UAvg : ℝ × ℝ) :
    (∀ (p : ZMod M) (q : ZMod N),
      (potentialBCPeriodicPeriodic xL yL deltaZ (fun _ _ => 0) UAvg).u p q = ((UAvg.1 : ℝ) : ℂ)
      ∧ (potentialBCPeriodicPeriodic xL yL deltaZ (fun _ _ => 0) UAvg).v p q = ((UAvg.2 : ℝ) : ℂ)
      ∧ (potentialBCPeriodicPeriodic xL yL deltaZ (fun _ _ => 0) UAvg).w p q = 0)
    ∧ (∀ (p : ZMod M) (q : ZMod N),
      (potentialBCInflowPeriodic xL yL deltaZ (fun _ _ => 0) UAvg).u p q = ((UAvg.1 : ℝ) : ℂ)
      ∧ (potentialBCInflowPeriodic xL yL deltaZ (fun _ _ => 0) UAvg).v p q = ((UAvg.2 : ℝ) : ℂ)
      ∧ (potentialBCInflowPeriodic xL yL deltaZ (fun _ _ => 0) UAvg).w p q = 0)
    ∧ (∀ (p : ZMod M) (q : ZMod N),
      (potentialBCInflowInflow xL yL deltaZ (fun _ _ => 0) UAvg).u p q = ((UAvg.1 : ℝ) : ℂ)
      ∧ (potentialBCInflowInflow xL yL deltaZ (fun _ _ => 0) UAvg).v p q = ((UAvg.2 : ℝ) : ℂ)
      ∧ (potentialBCInflowInflow xL yL deltaZ (fun _ _ => 0) UAvg).w p q = 0) :=
  ⟨fun p q => zeroInputPP xL yL deltaZ UAvg p q,
   fun p q => zeroInputIP xL yL deltaZ UAvg p q,
   fun p q => zeroInputII xL yL deltaZ UAvg p q⟩

/-- Witness for C1 at a concrete grid and mean velocity. -/
theorem claim_C1_zero_input_witness :
    (potentialBCPeriodicPeriodic (M := 2) (N := 3) 1 1 1 (fun _ _ => 0) (2, 5)).u 0 0
      = ((2 : ℝ) : ℂ) :=
  ((claim_C1_zero_input (M := 2) (N := 3) 1 1 1 (2, 5)).1 0 0).1

/-- C5: applying the cached forward 2D transform followed by the matching
cached inverse transform (with the forward-side transform-length
normalization of the chosen convention) reproduces every plane array of the
configured size exactly — in exact complex arithmetic the round-trip error is
zero, hence within any fixed floating tolerance. -/
theorem claim_C5_round_trip (f : Plane M N) : fourier2dB (fourier2dF f) = f :=
  fourier2dB_fourier2dF f

/-- Witness for C5 on a concrete 2×3 plane array. -/
theorem claim_C5_round_trip_witness :
    fourier2dB (M := 2) (N := 3) (fourier2dF (fun p q => ((p.val : ℂ) + 2 * q.val)))
      = fun p q => ((p.val : ℂ) + 2 * q.val) :=
  claim_C5_round_trip (fun p q => ((p.val : ℂ) + 2 * q.val))

/-- C10: each of the three `potentialBC*` solve variants leaves its input
arrays unchanged — after the call the `wSamp` and `UAvg` members of the call
frame hold the same values as before it; only `uBC`, `vBC`, `wBC` are
written. -/
theorem claim_C10_frame (xL yL deltaZ : ℝ) (s : SolveCall M N) :
    ((runPotentialBCPeriodicPeriodic xL yL deltaZ s).wSamp = s.wSamp
      ∧ (runPotentialBCPeriodicPeriodic xL yL deltaZ s).UAvg = s.UAvg)
    ∧ ((runPotentialBCInflowPeriodic xL yL deltaZ s).wSamp = s.wSamp
      ∧ (runPotentialBCInflowPeriodic xL yL deltaZ s).UAvg = s.UAvg)
    ∧ ((runPotentialBCInflowInflow xL yL deltaZ s).wSamp = s.wSamp
      ∧ (runPotentialBCInflowInflow xL yL deltaZ s).UAvg = s.UAvg) :=
  ⟨⟨rfl, rfl⟩, ⟨rfl, rfl⟩, ⟨rfl, rfl⟩⟩

/-- Witness for C10 on a concrete call frame. -/
theorem claim_C10_frame_witness :
    (runPotentialBCPeriodicPeriodic (M := 2) (N := 2) 1 1 1
      ⟨fun _ _ => 7, (1, 2), fun _ _ => 0, fun _ _ => 0, fun _ _ => 0⟩).wSamp
      = (fun _ _ => (7 : ℂ)) :=
  (claim_C10_frame 1 1 1
    ⟨fun _ _ => 7, (1, 2), fun _ _ => 0, fun _ _ => 0, fun _ _ => 0⟩).1.1

/-- C3: for every input, the zero-wavenumber (mean) mode is handled by an
explicit branch that never divides by `|k| = 0`: in all three variants the
horizontal coefficients at the zero mode are set directly to the supplied
mean horizontal velocity components and the vertical coefficient to zero,
and at every nonzero mode the wavenumber magnitude the harmonic relation
divides by is nonzero, so the branch is never an error path. -/
theorem claim_C3_zero_mode_branch (xL yL deltaZ : ℝ) (hx : 0 < xL) (hy : 0 < yL) :
    (∀ (UAvg : ℝ × ℝ) (wHat : ℂ),
      solveModePP (M := M) (N := N) xL yL deltaZ UAvg 0 0 wHat
        = (((UAvg.1 : ℝ) : ℂ), ((UAvg.2 : ℝ) : ℂ), 0)
      ∧ solveModeIP (M := M) (N := N) xL yL deltaZ UAvg 0 0 wHat
        = (((UAvg.1 : ℝ) : ℂ), ((UAvg.2 : ℝ) : ℂ), 0)
      ∧ solveModeII (M := M) (N := N) xL yL deltaZ UAvg 0 0 wHat
        = (((UAvg.1 : ℝ) : ℂ), ((UAvg.2 : ℝ) : ℂ), 0))
    ∧ (∀ (m : ZMod M) (n : ZMod N), ¬(m = 0 ∧ n = 0) →
      kMag (kPeriodic xL m) (kPeriodic yL n) ≠ 0
      ∧ kMag (kInflow xL m) (kPeriodic yL n) ≠ 0
      ∧ kMag (kInflow xL m) (kInflow yL n) ≠ 0) := by
  constructor
  · intro UAvg wHat
    refine ⟨?_, ?_, ?_⟩ <;> simp [solveModePP, solveModeIP, solveModeII]
  · intro m n hmn
    rcases not_and_or.mp hmn with hm | hn
    · refine ⟨kMag_ne_zero _ _ (Or.inl ?_), kMag_ne_zero _ _ (Or.inl ?_),
        kMag_ne_zero _ _ (Or.inl ?_)⟩
      · exact fun h => hm ((kPeriodic_eq_zero_iff xL hx m).mp h)
      · exact fun h => hm ((kInflow_eq_zero_iff xL hx m).mp h)
      · exact fun h => hm ((kInflow_eq_zero_iff xL hx m).mp h)
    · refine ⟨kMag_ne_zero _ _ (Or.inr ?_), kMag_ne_zero _ _ (Or.inr ?_),
        kMag_ne_zero _ _ (Or.inr ?_)⟩
      · exact fun h => hn ((kPeriodic_eq_zero_iff yL hy n).mp h)
      · exact fun h => hn ((kPeriodic_eq_zero_iff yL hy n).mp h)
      · exact fun h => hn ((kInflow_eq_zero_iff yL hy n).mp h)

/-- Witness for C3 at a concrete mode and mean velocity. -/
theorem claim_C3_zero_mode_branch_witness :
    solveModePP (M := 2) (N := 2) 1 1 1 (3, 4) 0 0 5
      = (((3 : ℝ) : ℂ), ((4 : ℝ) : ℂ), 0) :=
  ((claim_C3_zero_mode_branch (M := 2) (N := 2) 1 1 1 (by norm_num)
    (by norm_num)).1 (3, 4) 5).1

/-- C2: a sampling-plane field equal to a single sinusoid at wavenumber
`(kx, 0)` (mode `m₀` in the positive-frequency half, physical wavenumber
`kx = 2π·m₀/xL`) with amplitude `A ≥ 0` yields a boundary-plane horizontal
velocity whose mode amplitude at that wavenumber is `A·e^(−kx·deltaZ)`, the
closed-form potential-flow decay over the vertical gap `deltaZ` (and the
cross-component `v` carries no amplitude at that mode). -/
theorem claim_C2_single_mode_decay (xL yL deltaZ A : ℝ) (UAvg : ℝ × ℝ) (m₀ : ZMod M)
    (hm : m₀ ≠ 0) (hhalf : 2 * m₀.val ≤ M) (hx : 0 < xL) (hA : 0 ≤ A) :
    modeAmplitude ((potentialBCPeriodicPeriodic (M := M) (N := N) xL yL deltaZ
        (wSampSinusoid A m₀) UAvg).u) m₀ 0
      = A * Real.exp (-(2 * Real.pi * (m₀.val : ℝ) / xL * deltaZ))
    ∧ modeAmplitude ((potentialBCPeriodicPeriodic (M := M) (N := N) xL yL deltaZ
        (wSampSinusoid A m₀) UAvg).v) m₀ 0 = 0 := by
  have hkx : kPeriodic xL m₀ = 2 * Real.pi * (m₀.val : ℝ) / xL := by
    unfold kPeriodic fftFreq
    rw [if_pos hhalf]
    norm_num
  have hky : kPeriodic yL (0 : ZMod N) = 0 := by
    unfold kPeriodic fftFreq
    simp [ZMod.val_zero]
  have hvalpos : 0 < (m₀.val : ℝ) := by
    have hne : m₀.val ≠ 0 := fun h => hm ((ZMod.val_eq_zero m₀).mp h)
    exact_mod_cast Nat.pos_of_ne_zero hne
  have hkxpos : 0 < kPeriodic xL m₀ := by
    rw [hkx]
    have h2pi : 0 < 2 * Real.pi := by positivity
    exact div_pos (mul_pos h2pi hvalpos) hx
  have hkmag : kMag (kPeriodic xL m₀) (kPeriodic yL (0 : ZMod N)) = kPeriodic xL m₀ := by
    rw [hky]
    unfold kMag
    rw [show (0 : ℝ) ^ 2 = 0 by norm_num, add_zero, Real.sqrt_sq hkxpos.le]
  have hcond : ¬(m₀ = 0 ∧ (0 : ZMod N) = 0) := fun h => hm h.1
  have hval : (fun k l => if k = m₀ ∧ l = (0 : ZMod N) then ((A : ℝ) : ℂ) else 0) m₀ 0
      = ((A : ℝ) : ℂ) := by simp
  constructor
  · rw [modeAmplitude]
    simp only [potentialBCPeriodicPeriodic]
    rw [fourier2dF_fourier2dB, fourier2dF_sinusoid, hval, solveModePP, if_neg hcond]
    simp only [harmonicRelation]
    rw [hkmag, div_self hkxpos.ne', one_mul]
    rw [map_mul, map_mul, Complex.abs_I, one_mul, Complex.abs_ofReal, Complex.abs_ofReal]
    rw [abs_of_pos (Real.exp_pos _), abs_of_nonneg hA, hkx]
    ring
  · rw [modeAmplitude]
    simp only [potentialBCPeriodicPeriodic]
    rw [fourier2dF_fourier2dB, fourier2dF_sinusoid, hval, solveModePP, if_neg hcond]
    simp only [harmonicRelation]
    rw [hky]
    simp

/-- C4: each solve variant is jointly linear in its inputs — solving the
combination `a·wSamp1 + b·wSamp2` with mean `a·mean1 + b·mean2` yields, at
every boundary node, the same linear combination of the two individual
solves, for each of the three output components. -/
theorem claim_C4_linearity (xL yL deltaZ a b : ℝ) (w1 w2 : Plane M N) (U1 U2 : ℝ × ℝ)
    (p : ZMod M) (q : ZMod N) :
    ((potentialBCPeriodicPeriodic xL yL deltaZ
        (fun p' q' => ((a : ℝ) : ℂ) * w1 p' q' + ((b : ℝ) : ℂ) * w2 p' q')
        (a * U1.1 + b * U2.1, a * U1.2 + b * U2.2)).u p q
      = ((a : ℝ) : ℂ) * (potentialBCPeriodicPeriodic xL yL deltaZ w1 U1).u p q
        + ((b : ℝ) : ℂ) * (potentialBCPeriodicPeriodic xL yL deltaZ w2 U2).u p q
    ∧ (potentialBCPeriodicPeriodic xL yL deltaZ
        (fun p' q' => ((a : ℝ) : ℂ) * w1 p' q' + ((b : ℝ) : ℂ) * w2 p' q')
        (a * U1.1 + b * U2.1, a * U1.2 + b * U2.2)).v p q
      = ((a : ℝ) : ℂ) * (potentialBCPeriodicPeriodic xL yL deltaZ w1 U1).v p q
        + ((b : ℝ) : ℂ) * (potentialBCPeriodicPeriodic xL yL deltaZ w2 U2).v p q
    ∧ (potentialBCPeriodicPeriodic xL yL deltaZ
        (fun p' q' => ((a : ℝ) : ℂ) * w1 p' q' + ((b : ℝ) : ℂ) * w2 p' q')
        (a * U1.1 + b * U2.1, a * U1.2 + b * U2.2)).w p q
      = ((a : ℝ) : ℂ) * (potentialBCPeriodicPeriodic xL yL deltaZ w1 U1).w p q
        + ((b : ℝ) : ℂ) * (potentialBCPeriodicPeriodic xL yL deltaZ w2 U2).w p q)
    ∧ ((potentialBCInflowPeriodic xL yL deltaZ
        (fun p' q' => ((a : ℝ) : ℂ) * w1 p' q' + ((b : ℝ) : ℂ) * w2 p' q')
        (a * U1.1 + b * U2.1, a * U1.2 + b * U2.2)).u p q
      = ((a : ℝ) : ℂ) * (potentialBCInflowPeriodic xL yL deltaZ w1 U1).u p q
        + ((b : ℝ) : ℂ) * (potentialBCInflowPeriodic xL yL deltaZ w2 U2).u p q
    ∧ (potentialBCInflowPeriodic xL yL deltaZ
        (fun p' q' => ((a : ℝ) : ℂ) * w1 p' q' + ((b : ℝ) : ℂ) * w2 p' q')
        (a * U1.1 + b * U2.1, a * U1.2 + b * U2.2)).v p q
      = ((a : ℝ) : ℂ) * (potentialBCInflowPeriodic xL yL deltaZ w1 U1).v p q
        + ((b : ℝ) : ℂ) * (potentialBCInflowPeriodic xL yL deltaZ w2 U2).v p q
    ∧ (potentialBCInflowPeriodic xL yL deltaZ
        (fun p' q' => ((a : ℝ) : ℂ) * w1 p' q' + ((b : ℝ) : ℂ) * w2 p' q')
        (a * U1.1 + b * U2.1, a * U1.2 + b * U2.2)).w p q
      = ((a : ℝ) : ℂ) * (potentialBCInflowPeriodic xL yL deltaZ w1 U1).w p q
        + ((b : ℝ) : ℂ) * (potentialBCInflowPeriodic xL yL deltaZ w2 U2).w p q)
    ∧ ((potentialBCInflowInflow xL yL deltaZ
        (fun p' q' => ((a : ℝ) : ℂ) * w1 p' q' + ((b : ℝ) : ℂ) * w2 p' q')
        (a * U1.1 + b * U2.1, a * U1.2 + b * U2.2)).u p q
      = ((a : ℝ) : ℂ) * (potentialBCInflowInflow xL yL deltaZ w1 U1).u p q
        + ((b : ℝ) : ℂ) * (potentialBCInflowInflow xL yL deltaZ w2 U2).u p q
    ∧ (potentialBCInflowInflow xL yL deltaZ
        (fun p' q' => ((a : ℝ) : ℂ) * w1 p' q' + ((b : ℝ) : ℂ) * w2 p' q')
        (a * U1.1 + b * U2.1, a * U1.2 + b * U2.2)).v p q
      = ((a : ℝ) : ℂ) * (potentialBCInflowInflow xL yL deltaZ w1 U1).v p q
        + ((b : ℝ) : ℂ) * (potentialBCInflowInflow xL yL deltaZ w2 U2).v p q
    ∧ (potentialBCInflowInflow xL yL deltaZ
        (fun p' q' => ((a : ℝ) : ℂ) * w1 p' q' + ((b : ℝ) : ℂ) * w2 p' q')
        (a * U1.1 + b * U2.1, a * U1.2 + b * U2.2)).w p q
      = ((a : ℝ) : ℂ) * (potentialBCInflowInflow xL yL deltaZ w1 U1).w p q
        + ((b : ℝ) : ℂ) * (potentialBCInflowInflow xL yL deltaZ w2 U2).w p q) := by
  refine ⟨⟨?_, ?_, ?_⟩, ⟨?_, ?_, ?_⟩, ⟨?_, ?_, ?_⟩⟩
  · exact pipeline_lin fourier2dF fourier2dB
      (fun x y f g m n => kern2T_lin _ _ _ x y f g m n)
      (fun x y f g m n => kern2T_lin _ _ _ x y f g m n)
      (fun U m n z => (solveModePP xL yL deltaZ U m n z).1) a b U1 U2 w1 w2
      (fun z1 z2 m n => (solveModePP_lin xL yL deltaZ a b U1 U2 z1 z2 m n).1) p q
  · exact pipeline_lin fourier2dF fourier2dB
      (fun x y f g m n => kern2T_lin _ _ _ x y f g m n)
      (fun x y f g m n => kern2T_lin _ _ _ x y f g m n)
      (fun U m n z => (solveModePP xL yL deltaZ U m n z).2.1) a b U1 U2 w1 w2
      (fun z1 z2 m n => (solveModePP_lin xL yL deltaZ a b U1 U2 z1 z2 m n).2.1) p q
  · exact pipeline_lin fourier2dF fourier2dB
      (fun x y f g m n => kern2T_lin _ _ _ x y f g m n)
      (fun x y f g m n => kern2T_lin _ _ _ x y f g m n)
      (fun U m n z => (solveModePP xL yL deltaZ U m n z).2.2) a b U1 U2 w1 w2
      (fun z1 z2 m n => (solveModePP_lin xL yL deltaZ a b U1 U2 z1 z2 m n).2.2) p q
  · exact pipeline_lin sinxFourieryF cosxFourieryB
      (fun x y f g m n => kern2T_lin _ _ _ x y f g m n)
      (fun x y f g m n => kern2T_lin _ _ _ x y f g m n)
      (fun U m n z => (solveModeIP xL yL deltaZ U m n z).1) a b U1 U2 w1 w2
      (fun z1 z2 m n => (solveModeIP_lin xL yL deltaZ a b U1 U2 z1 z2 m n).1) p q
  · exact pipeline_lin sinxFourieryF cosxFourieryB
      (fun x y f g m n => kern2T_lin _ _ _ x y f g m n)
      (fun x y f g m n => kern2T_lin _ _ _ x y f g m n)
      (fun U m n z => (solveModeIP xL yL deltaZ U m n z).2.1) a b U1 U2 w1 w2
      (fun z1 z2 m n => (solveModeIP_lin xL yL deltaZ a b U1 U2 z1 z2 m n).2.1) p q
  · exact pipeline_lin sinxFourieryF sinxFourieryB
      (fun x y f g m n => kern2T_lin _ _ _ x y f g m n)
      (fun x y f g m n => kern2T_lin _ _ _ x y f g m n)
      (fun U m n z => (solveModeIP xL yL deltaZ U m n z).2.2) a b U1 U2 w1 w2
      (fun z1 z2 m n => (solveModeIP_lin xL yL deltaZ a b U1 U2 z1 z2 m n).2.2) p q
  · exact pipeline_lin sinSin2F cosCos2B
      (fun x y f g m n => kern2T_lin _ _ _ x y f g m n)
      (fun x y f g m n => kern2T_lin _ _ _ x y f g m n)
      (fun U m n z => (solveModeII xL yL deltaZ U m n z).1) a b U1 U2 w1 w2
      (fun z1 z2 m n => (solveModeII_lin xL yL deltaZ a b U1 U2 z1 z2 m n).1) p q
  · exact pipeline_lin sinSin2F cosCos2B
      (fun x y f g m n => kern2T_lin _ _ _ x y f g m n)
      (fun x y f g m n => kern2T_lin _ _ _ x y f g m n)
      (fun U m n z => (solveModeII xL yL deltaZ U m n z).2.1) a b U1 U2 w1 w2
      (fun z1 z2 m n => (solveModeII_lin xL yL deltaZ a b U1 U2 z1 z2 m n).2.1) p q
  · exact pipeline_lin sinSin2F sinSin2B
      (fun x y f g m n => kern2T_lin _ _ _ x y f g m n)
      (fun x y f g m n => kern2T_lin _ _ _ x y f g m n)
      (fun U m n z => (solveModeII xL yL deltaZ U m n z).2.2) a b U1 U2 w1 w2
      (fun z1 z2 m n => (solveModeII_lin xL yL deltaZ a b U1 U2 z1 z2 m n).2.2) p q

/-- Witness for C4 on a concrete grid, scalars and inputs. -/
theorem claim_C4_linearity_witness :
    (potentialBCPeriodicPeriodic (M := 2) (N := 2) 1 1 1
        (fun p' q' => ((2 : ℝ) : ℂ) * (fun _ _ => (1 : ℂ)) p' q'
          + ((3 : ℝ) : ℂ) * (fun _ _ => (1 : ℂ)) p' q')
        (2 * ((1 : ℝ), (0 : ℝ)).1 + 3 * ((0 : ℝ), (1 : ℝ)).1,
         2 * ((1 : ℝ), (0 : ℝ)).2 + 3 * ((0 : ℝ), (1 : ℝ)).2)).u 0 0
      = ((2 : ℝ) : ℂ) * (potentialBCPeriodicPeriodic (M := 2) (N := 2) 1 1 1
          (fun _ _ => (1 : ℂ)) ((1 : ℝ), (0 : ℝ))).u 0 0
        + ((3 : ℝ) : ℂ) * (potentialBCPeriodicPeriodic (M := 2) (N := 2) 1 1 1
          (fun _ _ => (1 : ℂ)) ((0 : ℝ), (1 : ℝ))).u 0 0 :=
  (claim_C4_linearity 1 1 1 2 3 (fun _ _ => 1) (fun _ _ => 1)
    ((1 : ℝ), (0 : ℝ)) ((0 : ℝ), (1 : ℝ)) 0 0).1.1

/-- Witness for C2 at a concrete grid, mode and amplitude. -/
theorem claim_C2_single_mode_decay_witness :
    modeAmplitude ((potentialBCPeriodicPeriodic (M := 4) (N := 2) 1 1 1
        (wSampSinusoid 1 1) (0, 0)).u) 1 0
      = 1 * Real.exp (-(2 * Real.pi * (((1 : ZMod 4)).val : ℝ) / 1 * 1)) :=
  (claim_C2_single_mode_decay (M := 4) (N := 2) 1 1 1 1 (0, 0) 1 (by decide) (by decide)
    (by norm_num) (by norm_num)).1

/-- C6: after the first successful setup the instance is permanently in the
Initialized state — every subsequent `initialize()` call (with any
configuration) is a no-op leaving the whole static state (grid geometry, node
sequences, plan cache) unchanged, `execute()` first triggers setup if not yet
performed, and no sequence of operations clears the initialized flag back to
the Uninitialized state. -/
theorem claim_C6_init_state_machine (cfg : ABLConfig) (mesh : List (List MeshNode))
    (s : ABLState) :
    (setupOnce cfg mesh s).needInit = false
    ∧ (∀ (cfg' : ABLConfig) (mesh' : List (List MeshNode)),
        setupOnce cfg' mesh' (setupOnce cfg mesh s) = setupOnce cfg mesh s)
    ∧ (∀ (cfg' : ABLConfig) (mesh' : List (List MeshNode)) (t : ABLState),
        executeStep cfg' mesh' t = setupOnce cfg' mesh' t)
    ∧ (∀ ops : List ABLOp,
        runOps ops (setupOnce cfg mesh s) = setupOnce cfg mesh s
        ∧ (runOps ops (setupOnce cfg mesh s)).needInit = false) := by
  refine ⟨setupOnce_needInit cfg mesh s, ?_, fun _ _ _ => rfl, ?_⟩
  · intro cfg' mesh'
    exact setupOnce_noop cfg' mesh' _ (setupOnce_needInit cfg mesh s)
  · intro ops
    have h := runOps_noop ops _ (setupOnce_needInit cfg mesh s)
    exact ⟨h, by rw [h]; exact setupOnce_needInit cfg mesh s⟩

/-- C7: setup fails with a fatal `ConfigError`, and fails only, when the
discovered node count disagrees with `imax × jmax`, a structured index tag is
duplicated or missing, the horizontal spacing deviates beyond tolerance from
uniform, or the horizontal boundary-type vector contains a value outside
{periodic, inflow}; otherwise it returns the static data. -/
theorem claim_C7_config_errors (cfg : ABLConfig) (mesh : List (List MeshNode)) :
    (∃ e, setupChecked cfg mesh = .error e)
      ↔ (countOK cfg mesh = false ∨ indexTagsOK cfg mesh = false
          ∨ spacingOK cfg mesh = false ∨ bcValuesOK cfg = false) := by
  unfold setupChecked
  split_ifs with h1 h2 h3 h4 <;> simp [*]

/-- C8: the transform-plan set is determined solely by the
`(horizBC_x, horizBC_y)` combination with exactly the three documented
shapes, every plan is sized to `(imax, jmax)`, the set is created exactly
once at first setup, reused unchanged by every subsequent operation, and
released exactly once at destruction. -/
theorem claim_C8_plan_cache (cfg : ABLConfig) (mesh : List (List MeshNode))
    (ops : List ABLOp) (ni nj : ℕ) :
    createPlans (.periodic, .periodic) ni nj
        = [⟨.fourier2dFwd, ni, nj⟩, ⟨.fourier2dBwd, ni, nj⟩]
    ∧ createPlans (.inflow, .periodic) ni nj
        = [⟨.sinx, ni, nj⟩, ⟨.cosx, ni, nj⟩, ⟨.fourieryFwd, ni, nj⟩, ⟨.fourieryBwd, ni, nj⟩]
    ∧ createPlans (.periodic, .inflow) ni nj
        = [⟨.siny, ni, nj⟩, ⟨.cosy, ni, nj⟩, ⟨.fourierxFwd, ni, nj⟩, ⟨.fourierxBwd, ni, nj⟩]
    ∧ createPlans (.inflow, .inflow) ni nj
        = [⟨.sinx, ni, nj⟩, ⟨.cosx, ni, nj⟩, ⟨.siny, ni, nj⟩, ⟨.cosy, ni, nj⟩]
    ∧ (∀ bc : BCType × BCType, ∀ ps ∈ createPlans bc ni nj, ps.ni = ni ∧ ps.nj = nj)
    ∧ (setupOnce cfg mesh freshState).plansCreated = 1
    ∧ runOps ops (setupOnce cfg mesh freshState) = setupOnce cfg mesh freshState
    ∧ (runOps ops (setupOnce cfg mesh freshState)).plansCreated = 1
    ∧ (destroyStep (runOps ops (setupOnce cfg mesh freshState))).plansCreated = 1
    ∧ (destroyStep (runOps ops (setupOnce cfg mesh freshState))).plansReleased = 1
    ∧ (setupOnce cfg mesh freshState).staticData = some (computeStatic cfg mesh)
    ∧ (computeStatic cfg mesh).plans = createPlans (bcCombo cfg) cfg.imax cfg.jmax := by
  have hrun : runOps ops (setupOnce cfg mesh freshState) = setupOnce cfg mesh freshState :=
    runOps_noop ops _ (setupOnce_needInit cfg mesh freshState)
  have hs1 : setupOnce cfg mesh freshState
      = { needInit := false, staticData := some (computeStatic cfg mesh),
          plansCreated := 1, plansReleased := 0 } := by
    simp [setupOnce, freshState]
  refine ⟨rfl, rfl, rfl, rfl, ?_, ?_, hrun, ?_, ?_, ?_, ?_, rfl⟩
  · rintro ⟨bx, bcy⟩ ps hps
    cases bx <;> cases bcy <;>
      (simp [createPlans] at hps;
       rcases hps with rfl | rfl | rfl | rfl <;> exact ⟨rfl, rfl⟩)
  · rw [hs1]
  · rw [hrun, hs1]
  · rw [destroyStep, hrun, hs1]
  · rw [destroyStep, hrun, hs1]
  · rw [hs1]

/-- C9: after a successful setup the distribution descriptor for the sample
plane satisfies — and every subsequent operation preserves — the invariant
that the per-partition counts sum to the total node count of the plane and
the offsets array is the prefix-sum sequence of the counts. -/
theorem claim_C9_distribution_descriptor (cfg : ABLConfig) (mesh : List (List MeshNode))
    (ops : List ABLOp) :
    (computeStatic cfg mesh).sampleDistrib.sum = totalNodes mesh
    ∧ (∀ i (h : i < (computeStatic cfg mesh).displ.length),
        (computeStatic cfg mesh).displ.get ⟨i, h⟩
          = ((computeStatic cfg mesh).sampleDistrib.take i).sum)
    ∧ (runOps ops (setupOnce cfg mesh freshState)).staticData
        = some (computeStatic cfg mesh) := by
  refine ⟨?_, ?_, ?_⟩
  · show (mesh.map List.length).sum = totalNodes mesh
    rw [totalNodes, List.length_flatten]
  · intro i h
    show (scanDispl (mesh.map List.length) 0).get ⟨i, h⟩
        = ((mesh.map List.length).take i).sum
    rw [scanDispl_get]
    exact Nat.zero_add _
  · rw [runOps_noop ops _ (setupOnce_needInit cfg mesh freshState)]
    simp [setupOnce, freshState]

/-- Witness for C9 on a concrete one-partition mesh. -/
theorem claim_C9_distribution_descriptor_witness :
    (computeStatic ⟨1, 1, [0, 0], 0, 0⟩ [[⟨0, 0, 0, 0⟩]]).displ.get ⟨0, by decide⟩
      = (((computeStatic ⟨1, 1, [0, 0], 0, 0⟩ [[⟨0, 0, 0, 0⟩]]).sampleDistrib.take 0).sum) :=
  (claim_C9_distribution_descriptor ⟨1, 1, [0, 0], 0, 0⟩ [[⟨0, 0, 0, 0⟩]] []).2.1 0 (by decide)

end NaluABL
